import Mathlib

/-!
Shallow embedding of the data-pipeline module of the OrcaDetector repository
(the single Python source file under `orca_detector/`) and proofs about it;
line numbers below refer to that file.

The program walks a directory of audio files, derives class labels from
directory names, splits the files per label into TRAIN/VALIDATE/TEST,
quantizes each file into fixed-length segments, extracts one mel-spectrogram
example per segment, and pickles the per-split `(label, features)` lists.

Modelling conventions:
* the filesystem is an association list from path to stored payload;
* machine integers are `Nat` (all quantities involved are non-negative);
* the float fractions `0.70` / `0.20` and Python's `int(...)` truncation are
  modelled exactly as numerator/denominator pairs with `Nat` floor division;
* the spectrogram matrix entries are modelled as `ℚ` stand-ins for floats:
  no claim here depends on float rounding, only on shapes and zero-filling;
* Python's `random.shuffle` (the standard-library Mersenne Twister, whose
  state at process start comes from OS entropy, since the program never calls
  `random.seed`) is modelled as a Fisher-Yates style selection driven by an
  explicit draw stream `gen : Nat → Nat`; `np.random.seed(251)` initialises
  the *numpy* generator, a separate piece of state that the split stage never
  reads, and is modelled as an explicit (unread) `npSeed` argument.
-/

namespace OrcaDetector

/-! ## Filesystem model and `_extract_and_save_features` (lines 71-304) -/

/-- The directory holding feature artifacts: an association list from file
path to the payload pickled there.  `α` abstracts the pickled bytes. -/
def FileSys (α : Type) : Type := List (String × α)

/-- Model of `os.path.exists`. -/
def osPathExists {α : Type} (fs : FileSys α) (p : String) : Bool :=
  (fs.lookup p).isSome

/-- Model of `os.remove`: drop the entry stored at `p`. -/
def osRemove {α : Type} (fs : FileSys α) (p : String) : FileSys α :=
  fs.filter (fun e => e.1 != p)

/-- Model of `open(p, 'wb')` followed by a full write: replace whatever was at `p`. -/
def osWrite {α : Type} (fs : FileSys α) (p : String) (v : α) : FileSys α :=
  (p, v) :: osRemove fs p

/-- Model of `_backup_datafile` (lines 71-86): if `file_path` exists, rename it to
`file_path + '-old'` (the call site uses the default suffix). -/
def backup_datafile {α : Type} (fs : FileSys α) (filePath : String) : FileSys α :=
  match fs.lookup filePath with
  | some v => osWrite (osRemove fs filePath) (filePath ++ "-old") v
  | none => fs

/-- Model of `_extract_and_save_features` (lines 274-304), restricted to its artifact
bookkeeping: the feature-extraction loop that produces `data` is abstracted
into the `payload` argument (the claim under study is about which payload ends
up under which path).  The function removes any existing artifact, then calls
`_backup_datafile` on that (now deleted) path, then writes the new payload. -/
def extract_and_save_features {α : Type} (fs : FileSys α) (dataPath : String)
    (datasetTypeName : String) (payload : α) : FileSys α :=
  let filename := dataPath ++ "/" ++ datasetTypeName ++ ".features"
  let fs1 := if osPathExists fs filename then osRemove fs filename else fs
  let fs2 := backup_datafile fs1 filename
  osWrite fs2 filename payload

/-! ## `_quantize_sample` (lines 89-122) -/

/-- Model of `np.arange(0, stop, step)` over naturals (`step > 0` in every use):
the multiples of `step` strictly below `stop`. -/
def arangeNat (stop step : Nat) : List Nat :=
  (List.range ((stop + step - 1) / step)).map (· * step)

/-- One quantized audio segment.  The source encodes it as the pair
`[label, 'file:start:frames']`; we model the colon-joined string
structurally. -/
structure SegmentRef where
  label : String
  file : String
  startFrame : Nat
  frameCount : Nat
deriving DecidableEq

/-- Model of `_quantize_sample` (lines 109-122): `totalFrames` is `wav_file.frames`
and `segmentFrames` is `min_frames = int(sample_len * samplerate)`.  When the
file is strictly longer than one segment, one segment per `arange` offset is
generated and the final one is deleted unconditionally (`del sample_list[-1]`);
otherwise the result is empty. -/
def quantize_sample (label file : String) (totalFrames segmentFrames : Nat) :
    List SegmentRef :=
  if segmentFrames < totalFrames then
    ((arangeNat totalFrames segmentFrames).map
      (fun s => ⟨label, file, s, segmentFrames⟩)).dropLast
  else []

/-! ## Label sanitization in `label_files` (lines 44-68) -/

/-- A Python `\w` word character (ASCII model): letter, digit or underscore. -/
def isWordChar (c : Char) : Bool := c.isAlphanum || c == '_'

/-- Model of the `re.sub` of line 60 (pattern backslash-W-plus, empty replacement): replacing every maximal run of
non-word characters with the empty string, i.e. keeping exactly the word
characters.  The argument is the grandparent directory name of the audio
files found by the walk. -/
def sanitize_label (s : String) : String := ⟨s.data.filter isWordChar⟩

/-! ## The stratified split in `read_files_and_extract_features` (421-433) -/

/-- The three slices produced for one label. -/
structure SplitResult (α : Type) where
  train : List α
  validate : List α
  test : List α
deriving DecidableEq

/-- Model of `num_train_files = int((len(files) + 1) * train_percentage)` (line 426),
with the float fraction written as `tfN / tfD` and `int` of a non-negative
value as floor, i.e. `Nat` division. -/
def num_train_files (n tfN tfD : Nat) : Nat := (n + 1) * tfN / tfD

/-- Model of `num_validate_files = int((len(files) + 1) * validate_percentage)`
(line 427). -/
def num_validate_files (n vfN vfD : Nat) : Nat := (n + 1) * vfN / vfD

/-- Lines 428-433: the three contiguous slices `files[:tc]`,
`files[tc : tc + vc]` and `files[tc + vc:]` of one label's (already
shuffled) file list. -/
def split_label_files {α : Type} (tfN tfD vfN vfD : Nat) (files : List α) :
    SplitResult α :=
  let tc := num_train_files files.length tfN tfD
  let vc := num_validate_files files.length vfN vfD
  ⟨files.take tc, (files.drop tc).take vc, files.drop (tc + vc)⟩

/-- Model of `random.shuffle(files)` (line 425), modelled as repeatedly selecting the
element at a generator-chosen index among the remaining ones.  `gen t` is the
raw draw of the standard-library generator at its `t`-th call; an in-range
index is obtained by reduction modulo the number of remaining elements.  The
first argument is fuel, instantiated with the list length. -/
def shuffleGo {α : Type} (gen : Nat → Nat) : Nat → Nat → List α → List α
  | 0, _, l => l
  | _ + 1, _, [] => []
  | fuel + 1, t, a :: as =>
    (a :: as).get ⟨gen t % (as.length + 1), Nat.mod_lt _ (Nat.succ_pos as.length)⟩ ::
      shuffleGo gen fuel (t + 1) ((a :: as).eraseIdx (gen t % (as.length + 1)))

/-- In-place shuffle of one label's file list, consuming `l.length` draws
starting at draw index `t`. -/
def random_shuffle {α : Type} (gen : Nat → Nat) (t : Nat) (l : List α) : List α :=
  shuffleGo gen l.length t l

/-- The three per-split label-to-files dictionaries built by the loop at
lines 417-433 (`datasets[TRAIN]`, `datasets[VALIDATE]`, `datasets[TEST]`). -/
structure DatasetSplits where
  train : List (String × List String)
  validate : List (String × List String)
  test : List (String × List String)
deriving DecidableEq

/-- The loop of lines 422-433: labels with fewer than 10 files are skipped
(no draws are consumed for them); every other label's list is shuffled by the
standard-library generator and sliced.  `t` threads the generator's draw
counter across labels. -/
def splitStageGo (gen : Nat → Nat) (tfN tfD vfN vfD : Nat) :
    Nat → List (String × List String) → DatasetSplits
  | _, [] => ⟨[], [], []⟩
  | t, (label, files) :: rest =>
    if files.length < 10 then splitStageGo gen tfN tfD vfN vfD t rest
    else
      let r := split_label_files tfN tfD vfN vfD (random_shuffle gen t files)
      let d := splitStageGo gen tfN tfD vfN vfD (t + files.length) rest
      ⟨(label, r.train) :: d.train, (label, r.validate) :: d.validate,
        (label, r.test) :: d.test⟩

/-- The split stage of `read_files_and_extract_features` (lines 417-433).
`npSeed` is the state of the numpy generator, set to `251` by
`np.random.seed(251)` at import (line 28); the split stage never reads it,
because `random.shuffle` draws from the standard-library generator `gen`,
whose initial state comes from OS entropy (the program never calls
`random.seed`). -/
def read_files_split (npSeed : Nat) (gen : Nat → Nat) (tfN tfD vfN vfD : Nat)
    (allSamples : List (String × List String)) : DatasetSplits :=
  splitStageGo gen tfN tfD vfN vfD 0 allSamples

/-! ## Feature extraction (`extract_segment_features`, lines 185-271) -/

/-- Modelled from the spec: the framing primitive
`frame(matrix, window_length, hop_length)` of `mel_features` (a file of this
repository that is not under `src/`): slice the time axis into windows of
`window` rows taken every `hop` rows; an input with fewer than `window` rows
yields zero windows. -/
def frameRows (window hop : Nat) (m : List (List ℚ)) : List (List (List ℚ)) :=
  if m.length < window then []
  else (List.range ((m.length - window) / hop + 1)).map
    (fun i => (m.drop (i * hop)).take window)

/-- The all-zero example `np.zeros((1, NUM_FRAMES, NUM_BANDS, 1))` of line
255, with the canonical constants `w = NUM_FRAMES` and `b = NUM_BANDS` from
`mel_params` (496 and 64 per the docstring at line 202) kept as parameters
because `mel_params` is not under `src/`; the singleton leading and trailing
dimensions are elided. -/
def zeroExample (w b : Nat) : List (List ℚ) := List.replicate w (List.replicate b 0)

/-- The numpy broadcast assignment `X[0, :, :, :] = spectrogram` of line 269:
the destination slice has shape `(w, b, 1)` and the source has shape
`(k, w, b, 1)`, so the assignment succeeds (with the source's sole window
overwriting the whole destination) exactly when the extra leading dimension
`k` equals 1, and raises `ValueError: could not broadcast ...` otherwise. -/
def numpyAssign (src : List (List (List ℚ))) : Except String (List (List ℚ)) :=
  match src with
  | [x] => .ok x
  | _ => .error "could not broadcast input array"

/-- Model of `extract_segment_features` (lines 246-271) composed with the framing tail
of `_waveform_to_mel_spectrogram_segments` (lines 226-243): the argument is
the log mel spectrogram of the segment (one row per STFT frame); the result
is the zero example when framing yields no window, and otherwise the outcome
of the broadcast assignment. -/
def extract_segment_features (w b hop : Nat) (logMel : List (List ℚ)) :
    Except String (List (List ℚ)) :=
  let windows := frameRows w hop logMel
  if 0 < windows.length then numpyAssign windows else .ok (zeroExample w b)

/-! ## Label encoding (`encode_labels` / `create_label_encoding`, 164-362) -/

/-- Model of `LabelEncoder.fit(classes)` (line 362): the fitted `classes_` attribute is
the sorted list of distinct class values.  Class strings are compared by
their canonical (lexicographic) order; the order is kept as a `LinearOrder`
parameter and instantiated with lexicographically ordered character lists. -/
def fit_label_encoder {α : Type} [LinearOrder α] [DecidableEq α] (classes : List α) : List α :=
  (classes.dedup).insertionSort (· ≤ ·)

/-- Model of `encoder.transform([l])`: the position of `l` in the fitted `classes_`. -/
def encoder_transform {α : Type} [LinearOrder α] [DecidableEq α] (encoderClasses : List α) (l : α) : Nat :=
  encoderClasses.indexOf l

/-- One row of the one-hot matrix built at lines 179-181: zeros with a single
1 scattered at column `k`. -/
def one_hot_row (k n : Nat) : List Nat :=
  (List.range n).map (fun j => if j = k then 1 else 0)

/-- Model of `encode_labels` (lines 164-182): transform every label and scatter a 1
per row into a zero matrix of shape `(len(labels), len(encoder.classes_))`. -/
def encode_labels {α : Type} [LinearOrder α] [DecidableEq α] (labels : List α) (encoderClasses : List α) :
    List (List Nat) :=
  labels.map (fun l => one_hot_row (encoder_transform encoderClasses l) encoderClasses.length)

end OrcaDetector

namespace OrcaDetector

/-! ## Helper lemmas -/

theorem range_dropLast (n : Nat) : (List.range n).dropLast = List.range (n - 1) := by
  cases n with
  | zero => rfl
  | succ k => rw [List.range_succ, List.dropLast_concat, Nat.succ_sub_one]

theorem quantize_eq_range_map (label file : String) (N m : Nat) (h : m < N) :
    quantize_sample label file N m
      = (List.range ((N + m - 1) / m - 1)).map (fun k => ⟨label, file, k * m, m⟩) := by
  unfold quantize_sample arangeNat
  rw [if_pos h, List.map_map, ← List.map_dropLast, range_dropLast]
  rfl

theorem ceil_div_sub_one (N m : Nat) (hm : 0 < m) (h : m < N) :
    (N + m - 1) / m - 1 = (N - 1) / m := by
  have h1 : N + m - 1 = (N - 1) + m := by omega
  rw [h1, Nat.add_div_right _ hm, Nat.add_sub_cancel]

/-! ## Claim C1 -/

/-- Claim C1, evaluated at its failing input: starting from an empty
directory, saving payload `0` and then payload `1` to the split name `TRAIN`
leaves `TRAIN.features` holding the second payload but creates no
`TRAIN.features-old` at all, because `_extract_and_save_features` removes the
existing artifact (line 291) before `_backup_datafile` (line 300) gets a
chance to rename it; the backup promised by the documentation of
`_backup_datafile` is never produced. -/
theorem save_twice_leaves_no_backup :
    (extract_and_save_features
        (extract_and_save_features ([] : FileSys Nat) "/data" "TRAIN" 0)
        "/data" "TRAIN" 1).lookup "/data/TRAIN.features" = some 1
    ∧ (extract_and_save_features
        (extract_and_save_features ([] : FileSys Nat) "/data" "TRAIN" 0)
        "/data" "TRAIN" 1).lookup "/data/TRAIN.features-old" = none := by
  decide

/-! ## Claim C2 -/

/-- Claim C2 as stated is false: a file of 3 frames with 2-frame segments has
`floor(D/S) = floor(3/2) = 1 ≥ 1`, so the claim predicts `1 - 1 = 0`
segments, but `_quantize_sample` generates offsets `[0, 2]` and deletes only
the last, returning 1 segment. -/
theorem quantize_count_claim_counterexample :
    (quantize_sample "Orca" "f.wav" 3 2).length ≠ 3 / 2 - 1 := by
  decide

/-- Claim C2 amended: the number of segments returned equals
`ceil(totalFrames / segmentFrames) - 1` when `totalFrames > segmentFrames`
(one per generated offset, minus the unconditionally deleted final one) and 0
otherwise; in particular `totalFrames ≤ segmentFrames` yields the empty
list.  The claim's `floor` formula agrees only when the segment length
divides the total. -/
theorem quantize_sample_count (label file : String) (N m : Nat) (hm : 0 < m) :
    (quantize_sample label file N m).length
        = (if m < N then (N + m - 1) / m - 1 else 0)
    ∧ (N ≤ m → quantize_sample label file N m = []) := by
  constructor
  · by_cases h : m < N
    · rw [if_pos h, quantize_eq_range_map label file N m h, List.length_map,
        List.length_range]
    · rw [if_neg h, quantize_sample, if_neg h, List.length_nil]
  · intro hle
    rw [quantize_sample, if_neg (by omega)]

/-- Witness for `quantize_sample_count`: a 7-frame file with 2-frame segments
yields `ceil(7/2) - 1 = 3` segments. -/
theorem quantize_sample_count_witness :
    0 < 2 ∧ (quantize_sample "Orca" "f.wav" 7 2).length = (if 2 < 7 then (7 + 2 - 1) / 2 - 1 else 0) :=
  ⟨by decide, (quantize_sample_count "Orca" "f.wav" 7 2 (by decide)).1⟩

/-! ## Claim C8 -/

/-- Claim C8: with a positive segment length, every returned segment lies
inside the file (`startFrame + frameCount ≤ totalFrames`), has
`frameCount = segmentFrames`, starts at a multiple of `segmentFrames`, and
the returned segments are pairwise non-overlapping. -/
theorem quantize_sample_invariants (label file : String) (N m : Nat) (hm : 0 < m) :
    (∀ seg ∈ quantize_sample label file N m,
        seg.startFrame + seg.frameCount ≤ N
        ∧ seg.frameCount = m
        ∧ m ∣ seg.startFrame)
    ∧ (quantize_sample label file N m).Pairwise
        (fun a b => a.startFrame + a.frameCount ≤ b.startFrame
          ∨ b.startFrame + b.frameCount ≤ a.startFrame) := by
  by_cases h : m < N
  · rw [quantize_eq_range_map label file N m h, ceil_div_sub_one N m hm h]
    constructor
    · intro seg hseg
      obtain ⟨k, hk, rfl⟩ := List.mem_map.mp hseg
      have hk' : k < (N - 1) / m := List.mem_range.mp hk
      refine ⟨?_, rfl, ⟨k, by ring⟩⟩
      have h1 : (k + 1) * m ≤ (N - 1) / m * m :=
        Nat.mul_le_mul_right m (by omega)
      have h2 : (N - 1) / m * m ≤ N - 1 := Nat.div_mul_le_self _ _
      calc k * m + m = (k + 1) * m := by ring
        _ ≤ N - 1 := le_trans h1 h2
        _ ≤ N := by omega
    · refine List.Pairwise.map _ ?_ (List.pairwise_lt_range _)
      intro a b hab
      left
      simp only
      calc a * m + m = (a + 1) * m := by ring
        _ ≤ b * m := Nat.mul_le_mul_right m (by omega)
  · rw [quantize_sample, if_neg h]
    exact ⟨fun seg hseg => absurd hseg (List.not_mem_nil seg), List.Pairwise.nil⟩

/-- Witness for `quantize_sample_invariants` at a 7-frame file with 2-frame
segments. -/
theorem quantize_sample_invariants_witness :
    0 < 2 ∧
    ((∀ seg ∈ quantize_sample "Orca" "f.wav" 7 2,
        seg.startFrame + seg.frameCount ≤ 7
        ∧ seg.frameCount = 2
        ∧ 2 ∣ seg.startFrame)
    ∧ (quantize_sample "Orca" "f.wav" 7 2).Pairwise
        (fun a b => a.startFrame + a.frameCount ≤ b.startFrame
          ∨ b.startFrame + b.frameCount ≤ a.startFrame)) :=
  ⟨by decide, quantize_sample_invariants "Orca" "f.wav" 7 2 (by decide)⟩

/-! ## Claim C6 -/

/-- Claim C6 as stated is false: `re.sub('\W+', '', ...)` keeps underscores,
so a directory named `Orca_Pod` yields the label `Orca_Pod`, which is not
alphanumeric-only; and a directory named `---` yields the empty label. -/
theorem label_alphanumeric_counterexample :
    sanitize_label "Orca_Pod" = "Orca_Pod"
    ∧ ((sanitize_label "Orca_Pod").data.all Char.isAlphanum) = false
    ∧ sanitize_label "---" = "" := by
  decide

/-- Claim C6 amended: every character of a derived label is a word character
(alphanumeric or underscore), and the label is non-empty exactly when the
directory name contains at least one word character. -/
theorem sanitize_label_word_chars (s : String) :
    (∀ c ∈ (sanitize_label s).data, c.isAlphanum ∨ c = '_')
    ∧ (sanitize_label s ≠ "" ↔ ∃ c ∈ s.data, c.isAlphanum ∨ c = '_') := by
  constructor
  · intro c hc
    have h := (List.mem_filter.mp hc).2
    simp only [isWordChar, Bool.or_eq_true, beq_iff_eq] at h
    exact h
  · have hdata : (sanitize_label s).data = s.data.filter isWordChar := rfl
    constructor
    · intro hne
      have : (s.data.filter isWordChar) ≠ [] := by
        intro hnil
        apply hne
        apply String.ext
        rw [hdata, hnil]
      obtain ⟨c, hc⟩ := List.exists_mem_of_ne_nil _ this
      have hw := (List.mem_filter.mp hc).2
      simp only [isWordChar, Bool.or_eq_true, beq_iff_eq] at hw
      exact ⟨c, (List.mem_filter.mp hc).1, hw⟩
    · rintro ⟨c, hc, hw⟩ heq
      have : c ∈ (sanitize_label s).data := by
        rw [hdata]
        refine List.mem_filter.mpr ⟨hc, ?_⟩
        simp only [isWordChar, Bool.or_eq_true, beq_iff_eq]
        exact hw
      rw [heq] at this
      exact absurd this (List.not_mem_nil c)

/-- Witness for `sanitize_label_word_chars`: the underscore in the label
derived from directory `a_b` is a word character. -/
theorem sanitize_label_word_chars_witness :
    '_' ∈ (sanitize_label "a_b").data ∧ ('_'.isAlphanum ∨ '_' = '_') :=
  ⟨by decide, (sanitize_label_word_chars "a_b").1 '_' (by decide)⟩

/-! ## Shuffle lemmas -/

theorem get_cons_eraseIdx_perm {α : Type} : ∀ (l : List α) (j : Fin l.length),
    (l.get j :: l.eraseIdx j).Perm l
  | _ :: _, ⟨0, _⟩ => List.Perm.refl _
  | a :: as, ⟨j + 1, hj⟩ => by
    have ih := get_cons_eraseIdx_perm as ⟨j, by simpa using hj⟩
    simpa [List.eraseIdx] using ((List.Perm.swap a _ _).trans (ih.cons a))

theorem shuffleGo_perm {α : Type} (gen : Nat → Nat) :
    ∀ (fuel t : Nat) (l : List α), (shuffleGo gen fuel t l).Perm l
  | 0, _, l => List.Perm.refl l
  | _ + 1, _, [] => List.Perm.refl []
  | fuel + 1, t, a :: as => by
    have ih := shuffleGo_perm gen fuel (t + 1)
      ((a :: as).eraseIdx (gen t % (as.length + 1)))
    simpa [shuffleGo] using
      (ih.cons ((a :: as).get
        ⟨gen t % (as.length + 1), Nat.mod_lt _ (Nat.succ_pos as.length)⟩)).trans
        (get_cons_eraseIdx_perm (a :: as) _)

theorem random_shuffle_perm {α : Type} (gen : Nat → Nat) (t : Nat) (l : List α) :
    (random_shuffle gen t l).Perm l :=
  shuffleGo_perm gen l.length t l

theorem random_shuffle_length {α : Type} (gen : Nat → Nat) (t : Nat) (l : List α) :
    (random_shuffle gen t l).length = l.length :=
  (random_shuffle_perm gen t l).length_eq

/-! ## Association-list lookup lemmas -/

theorem lookup_cons_self {β : Type} (a : String) (b : β) (l : List (String × β)) :
    ((a, b) :: l).lookup a = some b := by
  simp [List.lookup]

theorem lookup_cons_ne {β : Type} (a c : String) (b : β) (l : List (String × β))
    (h : a ≠ c) : ((c, b) :: l).lookup a = l.lookup a := by
  have hb : (a == c) = false := beq_eq_false_iff_ne.mpr h
  simp [List.lookup, hb]

/-! ## Split-stage lemmas -/

theorem split_label_concat {α : Type} (tfN tfD vfN vfD : Nat) (l : List α) :
    (split_label_files tfN tfD vfN vfD l).train
      ++ (split_label_files tfN tfD vfN vfD l).validate
      ++ (split_label_files tfN tfD vfN vfD l).test = l := by
  unfold split_label_files
  simp only
  rw [List.append_assoc, ← List.drop_drop, List.take_append_drop, List.take_append_drop]

theorem splitStageGo_lookup_none (gen : Nat → Nat) (tfN tfD vfN vfD : Nat) :
    ∀ (t : Nat) (samples : List (String × List String)) (label : String),
      label ∉ samples.map Prod.fst →
      (splitStageGo gen tfN tfD vfN vfD t samples).train.lookup label = none
      ∧ (splitStageGo gen tfN tfD vfN vfD t samples).validate.lookup label = none
      ∧ (splitStageGo gen tfN tfD vfN vfD t samples).test.lookup label = none
  | _, [], _ => fun _ => ⟨rfl, rfl, rfl⟩
  | t, (l', fs') :: rest, label => fun h => by
    have hne : label ≠ l' := by
      intro heq
      exact h (by simp [heq])
    have hrest : label ∉ rest.map Prod.fst := fun hmem => h (by simp [hmem])
    by_cases hlen : fs'.length < 10
    · simpa [splitStageGo, hlen] using
        splitStageGo_lookup_none gen tfN tfD vfN vfD t rest label hrest
    · have ih := splitStageGo_lookup_none gen tfN tfD vfN vfD
        (t + fs'.length) rest label hrest
      simp only [splitStageGo, hlen, if_false]
      exact ⟨(lookup_cons_ne _ _ _ _ hne).trans ih.1,
        (lookup_cons_ne _ _ _ _ hne).trans ih.2.1,
        (lookup_cons_ne _ _ _ _ hne).trans ih.2.2⟩

theorem splitStageGo_lookup_mem (gen : Nat → Nat) (tfN tfD vfN vfD : Nat) :
    ∀ (t : Nat) (samples : List (String × List String)) (label : String)
      (files : List String),
      (samples.map Prod.fst).Nodup → (label, files) ∈ samples →
      10 ≤ files.length →
      ∃ shuffled : List String, shuffled.Perm files
        ∧ (splitStageGo gen tfN tfD vfN vfD t samples).train.lookup label
            = some (split_label_files tfN tfD vfN vfD shuffled).train
        ∧ (splitStageGo gen tfN tfD vfN vfD t samples).validate.lookup label
            = some (split_label_files tfN tfD vfN vfD shuffled).validate
        ∧ (splitStageGo gen tfN tfD vfN vfD t samples).test.lookup label
            = some (split_label_files tfN tfD vfN vfD shuffled).test
  | _, [], label, files => fun _ hmem _ => absurd hmem (List.not_mem_nil _)
  | t, (l', fs') :: rest, label, files => fun hkeys hmem hlen => by
    rcases List.mem_cons.mp hmem with heq | htail
    · obtain ⟨rfl, rfl⟩ := Prod.mk.injEq .. ▸ heq
      have hnotlt : ¬ (files.length < 10) := not_lt.mpr hlen
      refine ⟨random_shuffle gen t files, random_shuffle_perm gen t files, ?_⟩
      simp only [splitStageGo, hnotlt, if_false]
      exact ⟨lookup_cons_self .., lookup_cons_self .., lookup_cons_self ..⟩
    · have hkeys2 : (l' :: rest.map Prod.fst).Nodup := by simpa using hkeys
      have hl'notin : l' ∉ rest.map Prod.fst := (List.nodup_cons.mp hkeys2).1
      have hlne : label ≠ l' := by
        rintro rfl
        exact hl'notin (List.mem_map.mpr ⟨(label, files), htail, rfl⟩)
      have hkeys' : (rest.map Prod.fst).Nodup := (List.nodup_cons.mp hkeys2).2
      by_cases hlt : fs'.length < 10
      · have ih := splitStageGo_lookup_mem gen tfN tfD vfN vfD t rest label files
          hkeys' htail hlen
        simpa [splitStageGo, hlt] using ih
      · obtain ⟨sh, hperm, h1, h2, h3⟩ := splitStageGo_lookup_mem gen tfN tfD vfN vfD
          (t + fs'.length) rest label files hkeys' htail hlen
        refine ⟨sh, hperm, ?_, ?_, ?_⟩ <;>
          simp only [splitStageGo, hlt, if_false] <;>
          rw [lookup_cons_ne _ _ _ _ hlne]
        · exact h1
        · exact h2
        · exact h3

theorem split_dropped_label (gen : Nat → Nat) (tfN tfD vfN vfD : Nat) :
    ∀ (t : Nat) (samples : List (String × List String)) (label : String)
      (files : List String),
      (samples.map Prod.fst).Nodup → (label, files) ∈ samples →
      files.length < 10 →
      (splitStageGo gen tfN tfD vfN vfD t samples).train.lookup label = none
      ∧ (splitStageGo gen tfN tfD vfN vfD t samples).validate.lookup label = none
      ∧ (splitStageGo gen tfN tfD vfN vfD t samples).test.lookup label = none
  | _, [], label, files => fun _ hmem _ => absurd hmem (List.not_mem_nil _)
  | t, (l', fs') :: rest, label, files => fun hkeys hmem hlt => by
    have hkeys2 : (l' :: rest.map Prod.fst).Nodup := by simpa using hkeys
    have hl'notin : l' ∉ rest.map Prod.fst := (List.nodup_cons.mp hkeys2).1
    have hkeys' : (rest.map Prod.fst).Nodup := (List.nodup_cons.mp hkeys2).2
    rcases List.mem_cons.mp hmem with heq | htail
    · obtain ⟨rfl, rfl⟩ := Prod.mk.injEq .. ▸ heq
      simpa [splitStageGo, hlt] using
        splitStageGo_lookup_none gen tfN tfD vfN vfD t rest label hl'notin
    · have hlne : label ≠ l' := by
        rintro rfl
        exact hl'notin (List.mem_map.mpr ⟨(label, files), htail, rfl⟩)
      by_cases hl : fs'.length < 10
      · simpa [splitStageGo, hl] using
          split_dropped_label gen tfN tfD vfN vfD t rest label files hkeys' htail hlt
      · obtain ⟨h1, h2, h3⟩ := split_dropped_label gen tfN tfD vfN vfD
          (t + fs'.length) rest label files hkeys' htail hlt
        refine ⟨?_, ?_, ?_⟩ <;>
          simp only [splitStageGo, hl, if_false] <;>
          rw [lookup_cons_ne _ _ _ _ hlne]
        · exact h1
        · exact h2
        · exact h3

/-! ## Claim C3 -/

/-- Claim C3: in the split stage, every label with at least 10 (distinct)
files gets TRAIN/VALIDATE/TEST slices that are pairwise disjoint and together
contain exactly the label's original files, for any state of the shuffle
generator; every label with fewer than 10 files appears in none of the three
split dictionaries. -/
theorem split_stratified_partition (npSeed : Nat) (gen : Nat → Nat)
    (tfN tfD vfN vfD : Nat) (samples : List (String × List String))
    (label : String) (files : List String)
    (hkeys : (samples.map Prod.fst).Nodup) (hmem : (label, files) ∈ samples) :
    (10 ≤ files.length → files.Nodup →
      ∃ tr va te,
        (read_files_split npSeed gen tfN tfD vfN vfD samples).train.lookup label = some tr
        ∧ (read_files_split npSeed gen tfN tfD vfN vfD samples).validate.lookup label = some va
        ∧ (read_files_split npSeed gen tfN tfD vfN vfD samples).test.lookup label = some te
        ∧ (∀ x, (x ∈ tr ∨ x ∈ va ∨ x ∈ te) ↔ x ∈ files)
        ∧ (∀ x, x ∈ tr → x ∉ va)
        ∧ (∀ x, x ∈ tr → x ∉ te)
        ∧ (∀ x, x ∈ va → x ∉ te))
    ∧ (files.length < 10 →
        (read_files_split npSeed gen tfN tfD vfN vfD samples).train.lookup label = none
        ∧ (read_files_split npSeed gen tfN tfD vfN vfD samples).validate.lookup label = none
        ∧ (read_files_split npSeed gen tfN tfD vfN vfD samples).test.lookup label = none) := by
  constructor
  · intro hlen hnd
    obtain ⟨sh, hperm, h1, h2, h3⟩ :=
      splitStageGo_lookup_mem gen tfN tfD vfN vfD 0 samples label files hkeys hmem hlen
    refine ⟨_, _, _, h1, h2, h3, ?_, ?_⟩
    · intro x
      have hconcat := split_label_concat tfN tfD vfN vfD sh
      constructor
      · intro hx
        exact hperm.mem_iff.mp (by
          rw [← hconcat]
          simp only [List.mem_append]
          tauto)
      · intro hx
        have : x ∈ (split_label_files tfN tfD vfN vfD sh).train
            ++ (split_label_files tfN tfD vfN vfD sh).validate
            ++ (split_label_files tfN tfD vfN vfD sh).test := by
          rw [hconcat]
          exact hperm.mem_iff.mpr hx
        simpa using this
    · have hshnd : sh.Nodup := hperm.nodup_iff.mpr hnd
      have hcnd : ((split_label_files tfN tfD vfN vfD sh).train
          ++ (split_label_files tfN tfD vfN vfD sh).validate
          ++ (split_label_files tfN tfD vfN vfD sh).test).Nodup := by
        rw [split_label_concat]
        exact hshnd
      rw [List.append_assoc, List.nodup_append, List.nodup_append] at hcnd
      obtain ⟨htr, ⟨hva, hte, hdvt⟩, hdisj⟩ := hcnd
      refine ⟨?_, ?_, ?_⟩
      · intro x hxt hxv
        exact hdisj hxt (List.mem_append.mpr (Or.inl hxv))
      · intro x hxt hxs
        exact hdisj hxt (List.mem_append.mpr (Or.inr hxs))
      · intro x hxv hxs
        exact hdvt hxv hxs
  · intro hlt
    exact split_dropped_label gen tfN tfD vfN vfD 0 samples label files hkeys hmem hlt

/-- Witness for `split_stratified_partition`: one label with 10 distinct
files is looked up in all three splits and partitioned; one label with a
single file is absent from the TRAIN split (and, by the same theorem, from
the other two). -/
theorem split_stratified_partition_witness :
    (10 ≤ (["a0","a1","a2","a3","a4","a5","a6","a7","a8","a9"] : List String).length)
    ∧ (∃ tr va te,
        (read_files_split 251 (fun _ => 0) 70 100 20 100
          [("Orca", ["a0","a1","a2","a3","a4","a5","a6","a7","a8","a9"]),
           ("Noise", ["n0"])]).train.lookup "Orca" = some tr
        ∧ (read_files_split 251 (fun _ => 0) 70 100 20 100
          [("Orca", ["a0","a1","a2","a3","a4","a5","a6","a7","a8","a9"]),
           ("Noise", ["n0"])]).validate.lookup "Orca" = some va
        ∧ (read_files_split 251 (fun _ => 0) 70 100 20 100
          [("Orca", ["a0","a1","a2","a3","a4","a5","a6","a7","a8","a9"]),
           ("Noise", ["n0"])]).test.lookup "Orca" = some te
        ∧ (∀ x, (x ∈ tr ∨ x ∈ va ∨ x ∈ te)
            ↔ x ∈ (["a0","a1","a2","a3","a4","a5","a6","a7","a8","a9"] : List String))
        ∧ (∀ x, x ∈ tr → x ∉ va)
        ∧ (∀ x, x ∈ tr → x ∉ te)
        ∧ (∀ x, x ∈ va → x ∉ te))
    ∧ ((["n0"] : List String).length < 10)
    ∧ (read_files_split 251 (fun _ => 0) 70 100 20 100
          [("Orca", ["a0","a1","a2","a3","a4","a5","a6","a7","a8","a9"]),
           ("Noise", ["n0"])]).train.lookup "Noise" = none := by
  refine ⟨by decide, ?_, by decide, ?_⟩
  · exact (split_stratified_partition 251 (fun _ => 0) 70 100 20 100
      [("Orca", ["a0","a1","a2","a3","a4","a5","a6","a7","a8","a9"]), ("Noise", ["n0"])]
      "Orca" ["a0","a1","a2","a3","a4","a5","a6","a7","a8","a9"]
      (by decide) (by decide)).1 (by decide) (by decide)
  · exact ((split_stratified_partition 251 (fun _ => 0) 70 100 20 100
      [("Orca", ["a0","a1","a2","a3","a4","a5","a6","a7","a8","a9"]), ("Noise", ["n0"])]
      "Noise" ["n0"] (by decide) (by decide)).2 (by decide)).1

/-! ## Claim C4 -/

/-- Claim C4: with fractions `tfN/tfD` and `vfN/vfD` summing to less than 1,
the split of a label's (shuffled) file list assigns exactly
`floor((n+1) * tfN/tfD)` files to TRAIN, the next
`floor((n+1) * vfN/vfD)` files to VALIDATE and all remaining files to TEST,
as contiguous non-overlapping slices in the order train, validate,
remainder. -/
theorem split_label_exact_slices {α : Type} (files : List α) (tfN tfD vfN vfD : Nat)
    (htD : 0 < tfD) (hvD : 0 < vfD)
    (hfrac : tfN * vfD + vfN * tfD < tfD * vfD) :
    (split_label_files tfN tfD vfN vfD files).train
        = files.take (num_train_files files.length tfN tfD)
    ∧ (split_label_files tfN tfD vfN vfD files).validate
        = (files.drop (num_train_files files.length tfN tfD)).take
            (num_validate_files files.length vfN vfD)
    ∧ (split_label_files tfN tfD vfN vfD files).test
        = files.drop (num_train_files files.length tfN tfD
            + num_validate_files files.length vfN vfD)
    ∧ (split_label_files tfN tfD vfN vfD files).train.length
        = num_train_files files.length tfN tfD
    ∧ (split_label_files tfN tfD vfN vfD files).validate.length
        = num_validate_files files.length vfN vfD
    ∧ (split_label_files tfN tfD vfN vfD files).test.length
        = files.length - (num_train_files files.length tfN tfD
            + num_validate_files files.length vfN vfD)
    ∧ (split_label_files tfN tfD vfN vfD files).train
        ++ (split_label_files tfN tfD vfN vfD files).validate
        ++ (split_label_files tfN tfD vfN vfD files).test = files := by
  have htfN : tfN < tfD := by
    by_contra hge
    push_neg at hge
    have := Nat.mul_le_mul_right vfD hge
    omega
  set n := files.length with hn
  set tc := num_train_files n tfN tfD with htcdef
  set vc := num_validate_files n vfN vfD with hvcdef
  have htc_le : tc ≤ n := by
    have h1 : (n + 1) * tfN < (n + 1) * tfD :=
      mul_lt_mul_of_pos_left htfN (Nat.succ_pos n)
    have h2 : tc < n + 1 := by
      rw [htcdef]
      unfold num_train_files
      exact (Nat.div_lt_iff_lt_mul htD).mpr h1
    omega
  have hsum : tc + vc ≤ n := by
    have hD : 0 < tfD * vfD := Nat.mul_pos htD hvD
    have e1 : tc = (n + 1) * tfN * vfD / (tfD * vfD) := by
      rw [htcdef]
      unfold num_train_files
      exact (Nat.mul_div_mul_right _ _ hvD).symm
    have e2 : vc = (n + 1) * vfN * tfD / (tfD * vfD) := by
      rw [hvcdef]
      unfold num_validate_files
      rw [Nat.mul_comm tfD vfD]
      exact (Nat.mul_div_mul_right _ _ htD).symm
    have hadd : (n + 1) * tfN * vfD / (tfD * vfD) + (n + 1) * vfN * tfD / (tfD * vfD)
        ≤ ((n + 1) * tfN * vfD + (n + 1) * vfN * tfD) / (tfD * vfD) := by
      rw [Nat.le_div_iff_mul_le hD, Nat.add_mul]
      exact Nat.add_le_add (Nat.div_mul_le_self _ _) (Nat.div_mul_le_self _ _)
    have heq : (n + 1) * tfN * vfD + (n + 1) * vfN * tfD
        = (n + 1) * (tfN * vfD + vfN * tfD) := by ring
    have hlast : ((n + 1) * tfN * vfD + (n + 1) * vfN * tfD) / (tfD * vfD) < n + 1 := by
      rw [Nat.div_lt_iff_lt_mul hD, heq]
      exact mul_lt_mul_of_pos_left hfrac (Nat.succ_pos n)
    omega
  refine ⟨rfl, rfl, rfl, ?_, ?_, ?_, split_label_concat tfN tfD vfN vfD files⟩
  · show (files.take tc).length = tc
    rw [List.length_take]
    exact min_eq_left htc_le
  · show ((files.drop tc).take vc).length = vc
    rw [List.length_take, List.length_drop]
    exact min_eq_left (by omega)
  · show (files.drop (tc + vc)).length = n - (tc + vc)
    rw [List.length_drop]

/-- Witness for `split_label_exact_slices` at a 10-file label with the
default fractions 0.70 and 0.20. -/
theorem split_label_exact_slices_witness :
    (0 < 100) ∧ (70 * 100 + 20 * 100 < 100 * 100)
    ∧ ((split_label_files 70 100 20 100
          (["b0","b1","b2","b3","b4","b5","b6","b7","b8","b9"] : List String)).train
        = (["b0","b1","b2","b3","b4","b5","b6","b7","b8","b9"] : List String).take
            (num_train_files 10 70 100)) :=
  ⟨by decide, by decide,
    (split_label_exact_slices ["b0","b1","b2","b3","b4","b5","b6","b7","b8","b9"]
      70 100 20 100 (by decide) (by decide) (by decide)).1⟩

/-! ## Claim C10 -/

/-- Claim C10: at the default fractions 0.70 and 0.20, every label entering
the split (at least 10 files) keeps a non-empty TEST slice:
`floor((n+1)*0.7) + floor((n+1)*0.2) < n` for all `n ≥ 10`, so the TEST
slice of the shuffled list is never empty. -/
theorem default_split_test_nonempty (gen : Nat → Nat) (t : Nat)
    (files : List String) (h : 10 ≤ files.length) :
    num_train_files files.length 70 100 + num_validate_files files.length 20 100
        < files.length
    ∧ (split_label_files 70 100 20 100 (random_shuffle gen t files)).test ≠ [] := by
  have key : ∀ n : Nat, 10 ≤ n →
      num_train_files n 70 100 + num_validate_files n 20 100 < n := by
    intro n hn
    unfold num_train_files num_validate_files
    have hadd : (n + 1) * 70 / 100 + (n + 1) * 20 / 100
        ≤ ((n + 1) * 70 + (n + 1) * 20) / 100 := by
      rw [Nat.le_div_iff_mul_le (by norm_num), Nat.add_mul]
      exact Nat.add_le_add (Nat.div_mul_le_self _ _) (Nat.div_mul_le_self _ _)
    have h90 : ((n + 1) * 70 + (n + 1) * 20) / 100 < n := by
      rw [Nat.div_lt_iff_lt_mul (by norm_num)]
      omega
    omega
  refine ⟨key files.length h, ?_⟩
  intro hnil
  have hsh : (random_shuffle gen t files).length = files.length :=
    random_shuffle_length gen t files
  have hlen : ((split_label_files 70 100 20 100 (random_shuffle gen t files)).test).length = 0 := by
    rw [hnil]
    rfl
  have hdrop : ((split_label_files 70 100 20 100 (random_shuffle gen t files)).test).length
      = files.length - (num_train_files files.length 70 100
          + num_validate_files files.length 20 100) := by
    show ((random_shuffle gen t files).drop _).length = _
    rw [List.length_drop, hsh]
  have := key files.length h
  omega

/-- Witness for `default_split_test_nonempty` at a concrete 10-file label. -/
theorem default_split_test_nonempty_witness :
    (10 ≤ (["c0","c1","c2","c3","c4","c5","c6","c7","c8","c9"] : List String).length)
    ∧ (num_train_files 10 70 100 + num_validate_files 10 20 100 < 10
        ∧ (split_label_files 70 100 20 100 (random_shuffle (fun _ => 0) 0
            (["c0","c1","c2","c3","c4","c5","c6","c7","c8","c9"] : List String))).test ≠ []) :=
  ⟨by decide, default_split_test_nonempty (fun _ => 0) 0
    ["c0","c1","c2","c3","c4","c5","c6","c7","c8","c9"] (by decide)⟩

/-! ## Claim C5 -/

/-- Claim C5 concerns a real defect: the program seeds the numpy generator
(`np.random.seed(251)`, under the comment `Set a seed so we get consistent
results`) but shuffles with the standard-library `random.shuffle`, whose
generator is never seeded and starts from OS entropy.  First conjunct: the
split output does not depend on the seeded numpy generator state at all.
Second conjunct: two runs over the identical input file list and the
identical fixed numpy seed 251, differing only in the OS-entropy state of
the standard-library generator, assign different splits — refuting the
claimed run-to-run reproducibility. -/
theorem split_not_reproducible_from_seed :
    (∀ (npSeed1 npSeed2 : Nat) (gen : Nat → Nat) (tfN tfD vfN vfD : Nat)
        (samples : List (String × List String)),
      read_files_split npSeed1 gen tfN tfD vfN vfD samples
        = read_files_split npSeed2 gen tfN tfD vfN vfD samples)
    ∧ read_files_split 251 (fun _ => 0) 70 100 20 100
        [("Orca", ["f0","f1","f2","f3","f4","f5","f6","f7","f8","f9"])]
      ≠ read_files_split 251 (fun t => t + 1) 70 100 20 100
        [("Orca", ["f0","f1","f2","f3","f4","f5","f6","f7","f8","f9"])] := by
  exact ⟨fun _ _ _ _ _ _ _ _ => rfl, by decide⟩

/-! ## Claim C7 -/

theorem numpyAssign_multi (src : List (List (List ℚ))) (h : 2 ≤ src.length) :
    numpyAssign src = .error "could not broadcast input array" := by
  match src with
  | [] => simp at h
  | [x] => simp at h
  | x :: y :: rest => rfl

/-- Claim C7 as stated is false on the multi-window case: a log mel
spectrogram long enough for two framing windows (here 4 rows with window
length 2 and hop 2) makes `X[0, :, :, :] = spectrogram` raise a broadcast
`ValueError` instead of returning an example holding the first window. -/
theorem extract_first_window_counterexample :
    extract_segment_features 2 2 2 [[1, 2], [3, 4], [5, 6], [7, 8]]
      = .error "could not broadcast input array" := by
  rfl

/-- Claim C7 amended: the zero example has the canonical shape; a spectrogram
shorter than one window yields the all-zero example; a spectrogram yielding
exactly one framing window returns that window, of the same canonical shape;
and a spectrogram yielding two or more windows makes the extraction fail with
a broadcast error instead of keeping the first window. -/
theorem extract_segment_cases (w b hop : Nat) (m : List (List ℚ))
    (hhop : 0 < hop) (hrows : ∀ row ∈ m, row.length = b) :
    ((zeroExample w b).length = w ∧ (∀ r ∈ zeroExample w b, r.length = b))
    ∧ (m.length < w → extract_segment_features w b hop m = .ok (zeroExample w b))
    ∧ (w ≤ m.length → m.length < w + hop →
        extract_segment_features w b hop m = .ok (m.take w)
        ∧ (m.take w).length = w
        ∧ (∀ r ∈ m.take w, r.length = b))
    ∧ (w + hop ≤ m.length → (extract_segment_features w b hop m).toOption = none) := by
  refine ⟨⟨List.length_replicate .., ?_⟩, ?_, ?_, ?_⟩
  · intro r hr
    rw [List.eq_of_mem_replicate hr]
    exact List.length_replicate ..
  · intro hshort
    unfold extract_segment_features frameRows
    rw [if_pos hshort]
    rfl
  · intro hge hlt
    have hzero : (m.length - w) / hop = 0 := Nat.div_eq_of_lt (by omega)
    have hframe : frameRows w hop m = [m.take w] := by
      unfold frameRows
      rw [if_neg (not_lt.mpr hge), hzero]
      have hr1 : List.range 1 = [0] := rfl
      rw [hr1]
      simp
    refine ⟨?_, ?_, ?_⟩
    · unfold extract_segment_features
      rw [hframe]
      rfl
    · rw [List.length_take]
      omega
    · intro r hr
      exact hrows r (List.take_subset w m hr)
  · intro hlong
    have hge : ¬ (m.length < w) := by omega
    have hone : 1 ≤ (m.length - w) / hop := (Nat.one_le_div_iff hhop).mpr (by omega)
    have hlen : (frameRows w hop m).length = (m.length - w) / hop + 1 := by
      unfold frameRows
      rw [if_neg hge, List.length_map, List.length_range]
    have herr : numpyAssign (frameRows w hop m)
        = .error "could not broadcast input array" :=
      numpyAssign_multi _ (by omega)
    unfold extract_segment_features
    rw [if_pos (by omega), herr]
    rfl

/-- Witness for `extract_segment_cases`: a 3-row spectrogram with window 2
and hop 2 frames into exactly one window, which is returned as the example. -/
theorem extract_segment_cases_witness :
    (0 < 2 ∧ (∀ row ∈ ([[1, 2], [3, 4], [5, 6]] : List (List ℚ)), row.length = 2))
    ∧ extract_segment_features 2 2 2 [[1, 2], [3, 4], [5, 6]]
        = .ok (([[1, 2], [3, 4], [5, 6]] : List (List ℚ)).take 2) :=
  ⟨⟨by decide, by decide⟩,
    ((extract_segment_cases 2 2 2 [[1, 2], [3, 4], [5, 6]] (by decide)
      (by decide)).2.2.1 (by decide) (by decide)).1⟩

/-! ## Claim C9 -/

theorem indexOf_sorted_eq_filter {α : Type} [LinearOrder α] [DecidableEq α] :
    ∀ (l : List α), l.Sorted (· ≤ ·) → l.Nodup → ∀ c ∈ l,
      l.indexOf c = (l.filter (fun b => b < c)).length
  | [], _, _, c, hc => by simp at hc
  | a :: as, hs, hn, c, hc => by
    rcases List.mem_cons.mp hc with hca | hmem
    · subst hca
      have hnone : ∀ b ∈ c :: as, ¬ (b < c) := by
        intro b hb
        rcases List.mem_cons.mp hb with rfl | hb
        · exact lt_irrefl _
        · exact not_lt.mpr ((List.sorted_cons.mp hs).1 b hb)
      rw [List.indexOf_cons_self]
      rw [List.filter_eq_nil_iff.mpr (by intro b hb; simpa using hnone b hb)]
      rfl
    · have hne : c ≠ a := by
        rintro rfl
        exact (List.nodup_cons.mp hn).1 hmem
      have halt : a < c :=
        lt_of_le_of_ne ((List.sorted_cons.mp hs).1 c hmem) (Ne.symm hne)
      have ih := indexOf_sorted_eq_filter as (List.sorted_cons.mp hs).2
        (List.nodup_cons.mp hn).2 c hmem
      rw [List.indexOf_cons_ne _ (Ne.symm hne)]
      simp [List.filter_cons, halt, ih]

/-- Claim C9: fitting on distinct class values yields the canonical-rank
bijection onto `[0, numClasses)` — the encoder classes are a permutation of
the input, the transform of a class is the number of classes strictly below
it in the encoder's canonical (lexicographic) order, distinct classes get
distinct ids, every id below `numClasses` is hit — and `encode_labels`
produces one row per label whose entries are 1 at that rank and 0
elsewhere.  The order parameter is instantiated with lexicographically
ordered class strings in the witness. -/
theorem fit_encoder_lex_rank {α : Type} [LinearOrder α] [DecidableEq α]
    (classes labels : List α)
    (hnd : classes.Nodup) (hsub : ∀ l ∈ labels, l ∈ classes) :
    (fit_label_encoder classes).Perm classes
    ∧ (∀ c ∈ classes, encoder_transform (fit_label_encoder classes) c
        = (classes.filter (fun b => b < c)).length)
    ∧ (∀ c ∈ classes, encoder_transform (fit_label_encoder classes) c < classes.length)
    ∧ (∀ c₁ ∈ classes, ∀ c₂ ∈ classes,
        encoder_transform (fit_label_encoder classes) c₁
          = encoder_transform (fit_label_encoder classes) c₂ → c₁ = c₂)
    ∧ (∀ k, k < classes.length → ∃ c ∈ classes,
        encoder_transform (fit_label_encoder classes) c = k)
    ∧ (∀ k n j : Nat, j < n → (one_hot_row k n)[j]? = some (if j = k then 1 else 0))
    ∧ encode_labels labels (fit_label_encoder classes)
        = labels.map (fun l => one_hot_row ((classes.filter (fun b => b < l)).length)
            classes.length) := by
  have hded : classes.dedup = classes := List.dedup_eq_self.mpr hnd
  have hperm : (fit_label_encoder classes).Perm classes := by
    unfold fit_label_encoder
    rw [hded]
    exact List.perm_insertionSort _ classes
  have hsorted : (fit_label_encoder classes).Sorted (· ≤ ·) :=
    List.sorted_insertionSort _ _
  have hencnd : (fit_label_encoder classes).Nodup := hperm.nodup_iff.mpr hnd
  have hlen : (fit_label_encoder classes).length = classes.length := hperm.length_eq
  have htrans : ∀ c ∈ classes, encoder_transform (fit_label_encoder classes) c
      = (classes.filter (fun b => b < c)).length := by
    intro c hc
    have hcenc : c ∈ fit_label_encoder classes := hperm.mem_iff.mpr hc
    unfold encoder_transform
    rw [indexOf_sorted_eq_filter _ hsorted hencnd c hcenc]
    exact (hperm.filter _).length_eq
  have hlt : ∀ c ∈ classes, encoder_transform (fit_label_encoder classes) c
      < classes.length := by
    intro c hc
    unfold encoder_transform
    rw [← hlen]
    exact List.indexOf_lt_length.mpr (hperm.mem_iff.mpr hc)
  refine ⟨hperm, htrans, hlt, ?_, ?_, ?_, ?_⟩
  · intro c₁ hc₁ c₂ hc₂ heq
    unfold encoder_transform at heq
    have hi₁ : List.indexOf c₁ (fit_label_encoder classes)
        < (fit_label_encoder classes).length :=
      List.indexOf_lt_length.mpr (hperm.mem_iff.mpr hc₁)
    have hi₂ : List.indexOf c₂ (fit_label_encoder classes)
        < (fit_label_encoder classes).length :=
      List.indexOf_lt_length.mpr (hperm.mem_iff.mpr hc₂)
    have h₁ := List.indexOf_get hi₁
    have h₂ := List.indexOf_get hi₂
    rw [← h₁, ← h₂]
    congr 1
    exact Fin.ext heq
  · intro k hk
    have hk2 : k < (fit_label_encoder classes).length := by rw [hlen]; exact hk
    have hmem : (fit_label_encoder classes).get ⟨k, hk2⟩ ∈ fit_label_encoder classes :=
      List.get_mem _ _ _
    refine ⟨(fit_label_encoder classes).get ⟨k, hk2⟩, hperm.mem_iff.mp hmem, ?_⟩
    have hidx : List.indexOf ((fit_label_encoder classes).get ⟨k, hk2⟩)
        (fit_label_encoder classes) < (fit_label_encoder classes).length :=
      List.indexOf_lt_length.mpr hmem
    have hget := List.indexOf_get hidx
    have hfin : (⟨List.indexOf ((fit_label_encoder classes).get ⟨k, hk2⟩)
        (fit_label_encoder classes), hidx⟩ : Fin (fit_label_encoder classes).length)
        = ⟨k, hk2⟩ := hencnd.get_inj_iff.mp hget
    show List.indexOf ((fit_label_encoder classes).get ⟨k, hk2⟩)
        (fit_label_encoder classes) = k
    exact congrArg Fin.val hfin
  · intro k n j hj
    unfold one_hot_row
    rw [List.getElem?_map, List.getElem?_range hj]
    rfl
  · unfold encode_labels
    apply List.map_congr_left
    intro l hl
    rw [htrans l (hsub l hl), hlen]

/-- Witness for `fit_encoder_lex_rank`: fitting on `["B", "A", "C"]` and
encoding `["A", "B", "C"]` yields the identity one-hot matrix (argmax 0, 1, 2:
the lexicographic ranks). -/
theorem fit_encoder_lex_rank_witness :
    (["B".data, "A".data, "C".data] : List (List Char)).Nodup
    ∧ (∀ l ∈ (["A".data, "B".data, "C".data] : List (List Char)),
        l ∈ (["B".data, "A".data, "C".data] : List (List Char)))
    ∧ encode_labels ["A".data, "B".data, "C".data]
        (fit_label_encoder ["B".data, "A".data, "C".data])
      = [[1, 0, 0], [0, 1, 0], [0, 0, 1]] := by
  refine ⟨by decide, by decide, ?_⟩
  rw [(fit_encoder_lex_rank ["B".data, "A".data, "C".data]
    ["A".data, "B".data, "C".data] (by decide) (by decide)).2.2.2.2.2.2]
  decide

end OrcaDetector
